import Mathlib

/-!
Verification of the AOI (automated optical inspection) core of the
Computer_Vision_application repository.

The development shallowly embeds the repository's Python code:

* the canonical orientation estimator of
  `practice/5_pick_place_project` (`canonicalize` — the width/height +90
  normalization of `tutorials/01_rotation_detection.py` and
  `tests/test_negative_angles.py` — and `fix_180_ambiguity` from
  `tests/debug_angle.py`);
* the detection service `aoi-system/backend/app/services/aoi_service.py`
  (`detect_defects`, `measure_dimensions`, `detect_fiducial_marks`).

Angles and float quantities are modelled as rationals.  External OpenCV /
NumPy primitives (imread, GaussianBlur, morphology, findContours, Canny,
HoughCircles, arctan2, pi, sqrt) are parameters of the embedding, bundled
in the `CV` structure; the per-pixel operations the service itself relies
on pointwise (absdiff, threshold) are implemented concretely.
-/

namespace AOI

/-- Python's `x % 360` (floor modulus) on rationals. -/
def mod360 (a : ℚ) : ℚ := a - 360 * (⌊a / 360⌋ : ℤ)

/-- Rounding to 2 decimal places, modelling Python's `round(x, 2)`
(ties, which never occur at the inputs considered here, follow
round-half-up in the model). -/
def round2 (q : ℚ) : ℚ := (round (q * 100) : ℤ) / 100

/-- Source: `tutorials/01_rotation_detection.py` lines 82–90 and
`tests/test_negative_angles.py` lines 25–32 ("method 3"):
```
width, height = det_size
if width < height:
    angle = 90 + det_angle
else:
    angle = det_angle
if angle < 0:
    angle += 360
```
-/
def canonicalize (w h rawAngle : ℚ) : ℚ :=
  let a := if w < h then 90 + rawAngle else rawAngle
  if a < 0 then a + 360 else a

/-- Source: `tests/debug_angle.py` lines 69–78:
```
def fix_180_ambiguity(angle, true_angle):
    error = abs(angle - true_angle)
    if error > 90:
        angle_flipped = (angle + 180) % 360
        error_flipped = abs(angle_flipped - true_angle)
        if error_flipped < error:
            return angle_flipped, error_flipped
    return angle, error
```
This is the source realization of the spec's `resolveAgainstReference`;
note it flips only when flipping strictly reduces the linear error. -/
def fix_180_ambiguity (angle trueAngle : ℚ) : ℚ × ℚ :=
  let error := |angle - trueAngle|
  if 90 < error then
    let flipped := mod360 (angle + 180)
    let errorFlipped := |flipped - trueAngle|
    if errorFlipped < error then (flipped, errorFlipped) else (angle, error)
  else (angle, error)

/-- The spec's own formula for `resolveAgainstReference` (§4.1: "computes
`|angle - reference|`; if it exceeds 90°, returns `(angle + 180) mod 360`,
else returns `angle` unchanged"), kept alongside the source function
`fix_180_ambiguity` for comparison. -/
def resolveAgainstReferenceSpec (angle reference : ℚ) : ℚ :=
  if 90 < |angle - reference| then mod360 (angle + 180) else angle

/-- Circular (mod-360) distance between two angle values. -/
def circDist (a b : ℚ) : ℚ :=
  min (mod360 (a - b)) (360 - mod360 (a - b))

theorem mod360_nonneg (a : ℚ) : 0 ≤ mod360 a := by
  have h := Int.floor_le (a / 360)
  have : (360 : ℚ) * (⌊a / 360⌋ : ℤ) ≤ 360 * (a / 360) := by
    have h360 : (0:ℚ) < 360 := by norm_num
    exact mul_le_mul_of_nonneg_left h (le_of_lt h360)
  unfold mod360
  have : (360 : ℚ) * (⌊a / 360⌋ : ℤ) ≤ a := by
    calc (360 : ℚ) * (⌊a / 360⌋ : ℤ) ≤ 360 * (a / 360) := this
    _ = a := by ring
  linarith

theorem mod360_lt (a : ℚ) : mod360 a < 360 := by
  have h := Int.sub_one_lt_floor (a / 360)
  have : a / 360 - 1 < (⌊a / 360⌋ : ℤ) := h
  unfold mod360
  nlinarith

theorem mod360_eq_self {a : ℚ} (h0 : 0 ≤ a) (h1 : a < 360) : mod360 a = a := by
  have hfl : ⌊a / 360⌋ = 0 := by
    rw [Int.floor_eq_zero_iff]
    constructor
    · positivity
    · rw [div_lt_one (by norm_num : (0:ℚ) < 360)] at *
      simpa using h1
  unfold mod360
  rw [hfl]
  push_cast
  ring

theorem mod360_add_360 (a : ℚ) : mod360 (a + 360) = mod360 a := by
  have hdiv : (a + 360) / 360 = a / 360 + 1 := by ring
  unfold mod360
  rw [hdiv, Int.floor_add_one]
  push_cast
  ring

theorem circDist_le_abs (a b : ℚ) : circDist a b ≤ |a - b| := by
  set d := a - b with hd
  have hm0 : 0 ≤ mod360 d := mod360_nonneg d
  have hm1 : mod360 d < 360 := mod360_lt d
  have hdm : d = mod360 d + 360 * (⌊d / 360⌋ : ℤ) := by
    unfold mod360; ring
  rcases lt_trichotomy (⌊d / 360⌋) 0 with hk | hk | hk
  · have hk' : (⌊d / 360⌋ : ℚ) ≤ -1 := by
      have : ⌊d / 360⌋ ≤ -1 := by omega
      exact_mod_cast this
    have habs : |d| = -d := by
      apply abs_of_nonpos; nlinarith
    unfold circDist
    rw [← hd, habs]
    have : 360 - mod360 d ≤ -d := by nlinarith
    exact le_trans (min_le_right _ _) this
  · have heq : mod360 d = d := by
      have h2 := hdm
      rw [hk] at h2
      push_cast at h2
      linarith
    unfold circDist
    rw [← hd]
    have habs : |d| = d := abs_of_nonneg (heq ▸ hm0)
    rw [habs]
    calc min (mod360 d) (360 - mod360 d) ≤ mod360 d := min_le_left _ _
    _ = d := heq
  · have hk' : (1 : ℚ) ≤ (⌊d / 360⌋ : ℤ) := by
      have : 1 ≤ ⌊d / 360⌋ := hk
      exact_mod_cast this
    have habs : |d| = d := by
      apply abs_of_nonneg; nlinarith
    unfold circDist
    rw [← hd, habs]
    have : 360 - mod360 d ≤ d := by nlinarith
    exact le_trans (min_le_right _ _) this

/-- `fix_180_ambiguity` at a reference equal to the angle returns the angle. -/
theorem fix_eq_of_self (t : ℚ) : (fix_180_ambiguity t t).1 = t := by
  unfold fix_180_ambiguity
  norm_num

/-- If the angle is linearly more than 90° from the reference but its
180°-flip lands exactly on the reference, `fix_180_ambiguity` returns the
reference. -/
theorem fix_eq_of_flip (x t : ℚ) (h : 90 < |x - t|) (hf : mod360 (x + 180) = t) :
    (fix_180_ambiguity x t).1 = t := by
  unfold fix_180_ambiguity
  rw [if_pos h, hf]
  have h0 : |t - t| < |x - t| := by
    simp only [sub_self, abs_zero]
    linarith [abs_nonneg (x - t)]
  rw [if_pos h0]

/-- The minimum-area rectangle fit itself is external (OpenCV
`cv2.minAreaRect` applied to the rasterized rectangle); what the scripts
rely on is that it yields *some* valid raw reading of the drawn `W×H`
rectangle at heading `theta`, with `rawAngle` in `[-90, 0)` and possibly
swapped width/height.  By the 180° silhouette symmetry of a rectangle,
the valid raw readings `(w, h, r)` are exactly: `r ∈ [-90, 0)` congruent
to `theta` mod 90, with sides unswapped when `theta - r` is a multiple of
180 and swapped when it is 90 plus a multiple of 180. -/
def ValidRawFit (W H theta w h r : ℚ) : Prop :=
  (-90 ≤ r ∧ r < 0) ∧
  ((w = W ∧ h = H ∧ ∃ k : ℤ, theta - r = 180 * k) ∨
   (w = H ∧ h = W ∧ ∃ k : ℤ, theta - r = 90 + 180 * k))

/-- C1: for every `theta ∈ [0, 360)` and every valid raw min-area-rect
reading of the synthetic 150×80 rectangle drawn at `theta`, the pipeline
`canonicalize` followed by `fix_180_ambiguity (·, theta)` (the source's
`resolveAgainstReference`) returns an angle within 1° of `theta`
(in the exact-fit model the error is 0). -/
theorem canonical_pipeline_roundtrip (theta w h r : ℚ)
    (h0 : 0 ≤ theta) (h1 : theta < 360)
    (hfit : ValidRawFit 150 80 theta w h r) :
    |(fix_180_ambiguity (canonicalize w h r) theta).1 - theta| ≤ 1 := by
  obtain ⟨⟨hr0, hr1⟩, hcase⟩ := hfit
  rcases hcase with ⟨hw, hh, k, hk⟩ | ⟨hw, hh, k, hk⟩
  · -- sides reported unswapped: theta - r is a multiple of 180
    subst hw; subst hh
    have hcan : canonicalize 150 80 r = r + 360 := by
      simp only [canonicalize]
      rw [if_neg (by norm_num : ¬ (150:ℚ) < 80), if_pos hr1]
    have hpos : (0:ℚ) < 180 * (k:ℤ) := by rw [← hk]; linarith
    have hlt : (180:ℚ) * (k:ℤ) < 450 := by rw [← hk]; linarith
    have hk0 : 0 < k := by
      by_contra hc; push_neg at hc
      have : ((k:ℤ):ℚ) ≤ 0 := by exact_mod_cast hc
      nlinarith
    have hk3 : k < 3 := by
      by_contra hc; push_neg at hc
      have : (3:ℚ) ≤ ((k:ℤ):ℚ) := by exact_mod_cast hc
      nlinarith
    interval_cases k
    · -- theta - r = 180
      have hr : r = theta - 180 := by push_cast at hk; linarith
      rw [hcan, hr]
      have he : theta - 180 + 360 = theta + 180 := by ring
      rw [he]
      have hflip : mod360 (theta + 180 + 180) = theta := by
        have h2 : theta + 180 + 180 = theta + 360 := by ring
        rw [h2, mod360_add_360, mod360_eq_self h0 h1]
      have habs : 90 < |theta + 180 - theta| := by
        have h2 : theta + 180 - theta = 180 := by ring
        rw [h2]; norm_num
      rw [fix_eq_of_flip _ _ habs hflip]
      simp
    · -- theta - r = 360
      have hr : r = theta - 360 := by push_cast at hk; linarith
      rw [hcan, hr]
      have he : theta - 360 + 360 = theta := by ring
      rw [he, fix_eq_of_self]
      simp
  · -- sides reported swapped: theta - r is 90 plus a multiple of 180
    subst hw; subst hh
    have hcan : canonicalize 80 150 r = 90 + r := by
      simp only [canonicalize]
      rw [if_pos (by norm_num : (80:ℚ) < 150), if_neg (by linarith : ¬ (90 + r < 0))]
    have hpos : (0:ℚ) < 90 + 180 * (k:ℤ) := by rw [← hk]; linarith
    have hlt : (90:ℚ) + 180 * (k:ℤ) < 450 := by rw [← hk]; linarith
    have hk0 : 0 ≤ k := by
      by_contra hc; push_neg at hc
      have hle : k ≤ -1 := by omega
      have : ((k:ℤ):ℚ) ≤ -1 := by exact_mod_cast hle
      nlinarith
    have hk2 : k < 2 := by
      by_contra hc; push_neg at hc
      have : (2:ℚ) ≤ ((k:ℤ):ℚ) := by exact_mod_cast hc
      nlinarith
    interval_cases k
    · -- theta - r = 90
      have hr : r = theta - 90 := by push_cast at hk; linarith
      rw [hcan, hr]
      have he : 90 + (theta - 90) = theta := by ring
      rw [he, fix_eq_of_self]
      simp
    · -- theta - r = 270
      have hr : r = theta - 270 := by push_cast at hk; linarith
      rw [hcan, hr]
      have he : 90 + (theta - 270) = theta - 180 := by ring
      rw [he]
      have hflip : mod360 (theta - 180 + 180) = theta := by
        have h2 : theta - 180 + 180 = theta := by ring
        rw [h2, mod360_eq_self h0 h1]
      have habs : 90 < |theta - 180 - theta| := by
        have h2 : theta - 180 - theta = -180 := by ring
        rw [h2]; norm_num
      rw [fix_eq_of_flip _ _ habs hflip]
      simp

/-- Witness for C1 at `theta = 37`: the valid reading of the 150×80
rectangle at 37° has `rawAngle = -53` and swapped sides 80×150; the
pipeline reproduces 37° exactly. -/
theorem canonical_pipeline_roundtrip_witness :
    |(fix_180_ambiguity (canonicalize 80 150 (-53)) 37).1 - 37| ≤ 1 :=
  canonical_pipeline_roundtrip 37 80 150 (-53) (by norm_num) (by norm_num)
    ⟨⟨by norm_num, by norm_num⟩, Or.inr ⟨rfl, rfl, 0, by norm_num⟩⟩

/-- C2 (counterexample): at `angle = 350`, `reference = 0` — a pair whose
circular distance is only 10° — both the source's `fix_180_ambiguity` and
the spec's stated formula return 170°, which is 170° away from the
reference mod 360, refuting "always within 90° of reference". -/
theorem resolve_reference_within90_counterexample :
    (fix_180_ambiguity 350 0).1 = 170 ∧
    resolveAgainstReferenceSpec 350 0 = 170 ∧
    ¬ circDist (fix_180_ambiguity 350 0).1 0 ≤ 90 := by
  norm_num [fix_180_ambiguity, resolveAgainstReferenceSpec, circDist, mod360]

/-- C2 (amended): `fix_180_ambiguity angle ref` is within 90° of `ref`
mod 360 provided `angle` itself, or its 180° flip `(angle + 180) mod 360`,
is within *linear* 90° of `ref`; without this proviso the mod-360 distance
can reach 170°. -/
theorem resolve_reference_within90_amended (angle ref : ℚ)
    (h : |angle - ref| ≤ 90 ∨ |mod360 (angle + 180) - ref| ≤ 90) :
    circDist (fix_180_ambiguity angle ref).1 ref ≤ 90 := by
  by_cases he : 90 < |angle - ref|
  · rcases h with h | h
    · linarith
    · simp only [fix_180_ambiguity]
      rw [if_pos he, if_pos (lt_of_le_of_lt h he)]
      exact le_trans (circDist_le_abs _ _) h
  · simp only [fix_180_ambiguity]
    rw [if_neg he]
    push_neg at he
    exact le_trans (circDist_le_abs _ _) he

/-- Witness for the amended C2 at `angle = 250`, `reference = 37`:
the flip `(250 + 180) mod 360 = 70` is within 33° of the reference. -/
theorem resolve_reference_within90_witness :
    circDist (fix_180_ambiguity 250 37).1 37 ≤ 90 :=
  resolve_reference_within90_amended 250 37 (Or.inr (by norm_num [mod360]))

/-- C3: for every raw reading with `rawAngle ∈ [-90, 0)`, `canonicalize`
returns an angle in `[0, 360)`; on the exact tie `width = height` the
`width < height` branch is not taken (no +90 adjustment), and the result
is deterministically `rawAngle + 360`. -/
theorem canonicalize_range (w h r : ℚ) (h0 : -90 ≤ r) (h1 : r < 0) :
    (0 ≤ canonicalize w h r ∧ canonicalize w h r < 360) ∧
    (w = h → canonicalize w h r = r + 360) := by
  simp only [canonicalize]
  by_cases hwh : w < h
  · rw [if_pos hwh, if_neg (by linarith : ¬ (90 + r < 0))]
    refine ⟨⟨by linarith, by linarith⟩, fun he => absurd hwh ?_⟩
    rw [he]
    exact lt_irrefl h
  · rw [if_neg hwh, if_pos h1]
    exact ⟨⟨by linarith, by linarith⟩, fun _ => rfl⟩

/-- Witness for C3 at the exact square tie `w = h = 80`, `rawAngle = -45`. -/
theorem canonicalize_range_witness :
    (0 ≤ canonicalize 80 80 (-45) ∧ canonicalize 80 80 (-45) < 360) ∧
    ((80:ℚ) = 80 → canonicalize 80 80 (-45) = -45 + 360) :=
  canonicalize_range 80 80 (-45) (by norm_num) (by norm_num)

/-! ## Embedding of `aoi-system/backend/app/services/aoi_service.py` -/

/-- A decoded single-channel image: rows of pixel intensities. -/
abbrev Image := List (List ℕ)

/-- A contour, modelled by the external cv2 measurements the service reads
from it: `cv2.contourArea` (`area`), `cv2.boundingRect` (`x, y, w, h`) and
`cv2.arcLength` (`perimeter`). -/
structure Contour where
  area : ℚ
  x : ℤ
  y : ℤ
  w : ℤ
  h : ℤ
  perimeter : ℚ
  deriving DecidableEq

/-- One cv2 drawing call issued on the result image (the painting itself
is external; the service determines the sequence of calls). -/
inductive DrawCmd where
  | contour (c : Contour)
  | rect (x1 y1 x2 y2 : ℤ)
  | circle (cx cy radius : ℤ)
  deriving DecidableEq

/-- A circle as returned by `cv2.HoughCircles`, after the source's
`np.uint16(np.around(...))` conversion to integer coordinates. -/
structure HoughMark where
  cx : ℤ
  cy : ℤ
  radius : ℤ
  deriving DecidableEq

/-- The external OpenCV / NumPy primitives the service calls.  The
service's own logic is embedded concretely; these library routines are
parameters of the embedding. -/
structure CV where
  /-- `cv2.imread(path, 0)` — decoding a grayscale image from a path. -/
  imread : String → Image
  /-- `cv2.GaussianBlur(img, (15, 15), 5)`. -/
  gaussianBlur15 : Image → Image
  /-- `cv2.GaussianBlur(img, (5, 5), 1.5)`. -/
  gaussianBlur5 : Image → Image
  /-- `cv2.morphologyEx(img, MORPH_OPEN, 5×5 ellipse)`. -/
  morphOpen5 : Image → Image
  /-- `cv2.Canny(img, 50, 150)`. -/
  canny : Image → Image
  /-- `cv2.findContours(img, RETR_EXTERNAL-mode, ...)`, each contour
  already paired with its cv2 measurements. -/
  findContours : Image → List Contour
  /-- `cv2.HoughCircles(img, ..., minRadius, maxRadius)`; `none` models
  the `None` return when no circles are found. -/
  houghCircles : Image → ℤ → ℤ → Option (List HoughMark)
  /-- `np.degrees(np.arctan2(dy, dx))` — float-valued, hence modelled as
  a rational-valued function. -/
  atan2Deg : ℤ → ℤ → ℚ
  /-- the float value of `np.pi`. -/
  pi : ℚ
  /-- `np.sqrt` — float-valued, hence modelled as a rational-valued
  function. -/
  sqrt : ℚ → ℚ

/-- `cv2.absdiff`: pointwise absolute difference. -/
def absdiff (a b : Image) : Image :=
  List.zipWith (List.zipWith fun u v => max u v - min u v) a b

/-- `cv2.threshold(img, t, maxv, THRESH_BINARY)`: pixel becomes `maxv`
when strictly above `t`, else 0. -/
def thresholdBinary (img : Image) (t : ℚ) (maxv : ℕ) : Image :=
  img.map (List.map fun (v : ℕ) => if t < (v : ℚ) then maxv else 0)

structure BBox where
  x : ℤ
  y : ℤ
  width : ℤ
  height : ℤ
  deriving DecidableEq

structure DefectRecord where
  id : ℕ
  posX : ℤ
  posY : ℤ
  area : ℚ
  bbox : BBox
  deriving DecidableEq

structure DefectResult where
  defects : List DefectRecord
  defect_count : ℕ
  annotated : Image × List DrawCmd
  deriving DecidableEq

/-- One entry appended by the defect loop:
`{"id": len(defs)+1, "position": {"x": int(x+w//2), "y": int(y+h//2)},
"area": float(a), "bbox": ...}` (`n` is the number already emitted). -/
def mkDefect (n : ℕ) (c : Contour) : DefectRecord :=
  { id := n + 1, posX := c.x + c.w.fdiv 2, posY := c.y + c.h.fdiv 2,
    area := c.area, bbox := ⟨c.x, c.y, c.w, c.h⟩ }

/-- The `for c in cnt` loop of `detect_defects`: contours with area < 50
are skipped; each survivor is drawn (contour then bounding box) and
emitted with id `len(defs)+1`. -/
def defectLoop : ℕ → List Contour → List DefectRecord × List DrawCmd
  | _, [] => ([], [])
  | n, c :: rest =>
    if c.area < 50 then defectLoop n rest
    else
      (mkDefect n c :: (defectLoop (n + 1) rest).1,
       DrawCmd.contour c :: DrawCmd.rect c.x c.y (c.x + c.w) (c.y + c.h) ::
         (defectLoop (n + 1) rest).2)

/-- `AOIService.detect_defects(path, t_path, threshold=30)`
(`aoi_service.py` lines 4–13).  The source performs no parameter
validation and contains no raise statement, so the translation is a total
function; the template-path argument `tPath` is accepted and never used,
exactly as in the source. -/
def detect_defects (cv : CV) (path : String) (tPath : Option String)
    (threshold : ℚ) : DefectResult :=
  let img := cv.imread path
  let tmp := cv.gaussianBlur15 img
  let diff := absdiff tmp img
  let th := thresholdBinary diff threshold 255
  let cl := cv.morphOpen5 th
  let cnt := cv.findContours cl
  { defects := (defectLoop 0 cnt).1,
    defect_count := (defectLoop 0 cnt).1.length,
    annotated := (img, (defectLoop 0 cnt).2) }

inductive Shape where
  | circle
  | rectangle
  deriving DecidableEq

structure MeasurementRecord where
  object_id : ℕ
  shape : Shape
  width_mm : ℚ
  height_mm : ℚ
  area_mm2 : ℚ
  bbox : BBox
  diameter_mm : Option ℚ
  deriving DecidableEq

structure MeasureResult where
  measurements : List MeasurementRecord
  annotated : Image × List DrawCmd
  deriving DecidableEq

/-- `circ = 4*np.pi*a/(p*p) if p > 0 else 0` (`aoi_service.py` line 21). -/
def circularity (piv : ℚ) (c : Contour) : ℚ :=
  if 0 < c.perimeter then 4 * piv * c.area / (c.perimeter * c.perimeter) else 0

/-- One entry appended by the measurement loop (`aoi_service.py` lines
22–24); `i` is the 0-based `enumerate` index of the contour. -/
def mkMeasurement (cv : CV) (pmm : ℚ) (i : ℕ) (c : Contour) : MeasurementRecord :=
  { object_id := i + 1,
    shape := if 4/5 < circularity cv.pi c then Shape.circle else Shape.rectangle,
    width_mm := round2 ((c.w : ℚ) * pmm),
    height_mm := round2 ((c.h : ℚ) * pmm),
    area_mm2 := round2 (c.area * pmm * pmm),
    bbox := ⟨c.x, c.y, c.w, c.h⟩,
    diameter_mm :=
      if 4/5 < circularity cv.pi c
      then some (round2 (2 * cv.sqrt (c.area / cv.pi) * pmm)) else none }

/-- The `for i, c in enumerate(cnt)` loop of `measure_dimensions`:
contours with area < 100 are skipped, but the enumerate index `i` still
advances past them; survivors are emitted with `object_id = i + 1`. -/
def measureLoop (cv : CV) (pmm : ℚ) :
    ℕ → List Contour → List MeasurementRecord × List DrawCmd
  | _, [] => ([], [])
  | i, c :: rest =>
    if c.area < 100 then measureLoop cv pmm (i + 1) rest
    else
      (mkMeasurement cv pmm i c :: (measureLoop cv pmm (i + 1) rest).1,
       DrawCmd.rect c.x c.y (c.x + c.w) (c.y + c.h) ::
         (measureLoop cv pmm (i + 1) rest).2)

/-- `AOIService.measure_dimensions(path, pmm=0.1)`
(`aoi_service.py` lines 15–25). -/
def measure_dimensions (cv : CV) (path : String) (pmm : ℚ) : MeasureResult :=
  let img := cv.imread path
  let e := cv.canny img
  let cnt := cv.findContours e
  { measurements := (measureLoop cv pmm 0 cnt).1,
    annotated := (img, (measureLoop cv pmm 0 cnt).2) }

structure FidMark where
  id : ℕ
  x : ℤ
  y : ℤ
  radius : ℤ
  deriving DecidableEq

structure FidResult where
  marks : List FidMark
  rotation_angle : Option ℚ
  annotated : Image × List DrawCmd
  deriving DecidableEq

/-- `AOIService.detect_fiducial_marks(path, minr=5, maxr=25)`
(`aoi_service.py` lines 27–35).  The returned rotation field is
`round(ang, 2) if ang else None`: Python truthiness makes the float
`0.0` (as well as `None`) select the `None` branch. -/
def detect_fiducial_marks (cv : CV) (path : String) (minr maxr : ℤ) : FidResult :=
  let img := cv.imread path
  let b := cv.gaussianBlur5 img
  match cv.houghCircles b minr maxr with
  | none => { marks := [], rotation_angle := none, annotated := (img, []) }
  | some circles =>
    let marks := circles.enum.map fun p =>
      ({ id := p.1 + 1, x := p.2.cx, y := p.2.cy, radius := p.2.radius } : FidMark)
    let cmds := circles.map fun m => DrawCmd.circle m.cx m.cy m.radius
    let ang : Option ℚ :=
      match marks with
      | m0 :: m1 :: _ => some (cv.atan2Deg (m1.y - m0.y) (m1.x - m0.x))
      | _ => none
    let rot : Option ℚ :=
      match ang with
      | some a => if a = 0 then none else some (round2 a)
      | none => none
    { marks := marks, rotation_angle := rot, annotated := (img, cmds) }

/-! ## Concrete instantiations of the external primitives -/

def samplePath : String := "panel.png"

/-- The constant image (`m` rows, `n` columns, intensity `c`). -/
def uniformImg (m n c : ℕ) : Image :=
  List.replicate m (List.replicate n c)

/-- A trivial instantiation of the external cv2/NumPy primitives, used to
evaluate the parameterized theorems at concrete inputs.  `pi` is a
rational stand-in for the float value of `np.pi` (accurate to 5 decimal
places); `atan2Deg` is faithful at the only point where the concrete
theorems evaluate it, `(dy, dx) = (0, 100)`, since `atan2(0, 100) = 0`. -/
def cvBase : CV :=
  { imread := fun _ => [[0]]
    gaussianBlur15 := id
    gaussianBlur5 := id
    morphOpen5 := id
    canny := id
    findContours := fun _ => []
    houghCircles := fun _ _ _ => none
    atan2Deg := fun _ _ => 0
    pi := 314159/100000
    sqrt := fun _ => 0 }

theorem zipWith_replicate_same {α β : Type} (f : α → α → β) (n : ℕ) (a b : α) :
    List.zipWith f (List.replicate n a) (List.replicate n b) =
      List.replicate n (f a b) := by
  induction n with
  | zero => rfl
  | succ k ih => simp [List.replicate_succ, ih]

theorem absdiff_uniform (m n c : ℕ) :
    absdiff (uniformImg m n c) (uniformImg m n c) = uniformImg m n 0 := by
  unfold absdiff uniformImg
  rw [zipWith_replicate_same, zipWith_replicate_same]
  simp

theorem thresholdBinary_uniform_zero (m n : ℕ) (t : ℚ) (ht : 0 < t) :
    thresholdBinary (uniformImg m n 0) t 255 = uniformImg m n 0 := by
  unfold thresholdBinary uniformImg
  rw [List.map_replicate, List.map_replicate]
  have hc : ¬ t < ((0:ℕ):ℚ) := by push_cast; linarith
  rw [if_neg hc]

/-- With a negative threshold every pixel of the (nonnegative) difference
image passes `cv2.threshold`'s strict comparison. -/
theorem thresholdBinary_of_neg (img : Image) (t : ℚ) (ht : t < 0) (maxv : ℕ) :
    thresholdBinary img t maxv = img.map (List.map fun _ => maxv) := by
  unfold thresholdBinary
  have hf : (fun (v : ℕ) => if t < (v : ℚ) then maxv else 0) = fun _ => maxv := by
    funext v
    rw [if_pos (lt_of_lt_of_le ht (by positivity))]
  rw [hf]

/-- C10: `detect_defects` never reads its template-path argument, so its
entire result — defect list, count, and the result image with its drawing
calls — is independent of it. -/
theorem detect_defects_template_independent (cv : CV) (path : String)
    (t1 t2 : Option String) (threshold : ℚ) :
    detect_defects cv path t1 threshold = detect_defects cv path t2 threshold := rfl

/-- C5 (counterexample): `detect_defects` called with the non-positive
threshold 0 does not fail — there is no parameter validation and no
`InvalidParameter` anywhere in the code — and it produces a normal result
carrying a defect list. -/
theorem detect_defects_nonpositive_threshold_counterexample :
    detect_defects cvBase samplePath none 0 =
      { defects := [], defect_count := 0, annotated := ([[0]], []) } := by
  norm_num [detect_defects, cvBase, absdiff, thresholdBinary, defectLoop]

/-- C5 (amended): the source performs no threshold validation.  Any
threshold is accepted; for a negative threshold the run proceeds with an
all-foreground binary mask (every pixel of the difference image passes),
and the normal pipeline result is returned. -/
theorem detect_defects_no_threshold_validation (cv : CV) (path : String)
    (tPath : Option String) (t : ℚ) (ht : t < 0) :
    detect_defects cv path tPath t =
      (let img := cv.imread path
       let diff := absdiff (cv.gaussianBlur15 img) img
       let cnt := cv.findContours (cv.morphOpen5 (diff.map (List.map fun _ => 255)))
       { defects := (defectLoop 0 cnt).1,
         defect_count := (defectLoop 0 cnt).1.length,
         annotated := (img, (defectLoop 0 cnt).2) }) := by
  simp only [detect_defects, thresholdBinary_of_neg _ _ ht]

theorem detect_defects_no_threshold_validation_witness :
    detect_defects cvBase samplePath none (-1) =
      (let img := cvBase.imread samplePath
       let diff := absdiff (cvBase.gaussianBlur15 img) img
       let cnt := cvBase.findContours
         (cvBase.morphOpen5 (diff.map (List.map fun _ => 255)))
       { defects := (defectLoop 0 cnt).1,
         defect_count := (defectLoop 0 cnt).1.length,
         annotated := (img, (defectLoop 0 cnt).2) }) :=
  detect_defects_no_threshold_validation cvBase samplePath none (-1) (by norm_num)

/-- C7: on a constant-intensity image the defect detector returns an empty
defect list and count 0, as a normal result.  The hypotheses are the
properties of the external primitives this rests on: Gaussian blur maps a
constant image to itself, morphological opening of an all-zero mask is
all-zero, and contour extraction on an all-zero mask finds nothing. -/
theorem uniform_image_zero_defects (cv : CV) (path : String)
    (tPath : Option String) (t : ℚ) (m n c : ℕ) (ht : 0 < t)
    (hread : cv.imread path = uniformImg m n c)
    (hblur : cv.gaussianBlur15 (uniformImg m n c) = uniformImg m n c)
    (hopen : cv.morphOpen5 (uniformImg m n 0) = uniformImg m n 0)
    (hfind : cv.findContours (uniformImg m n 0) = []) :
    (detect_defects cv path tPath t).defects = [] ∧
    (detect_defects cv path tPath t).defect_count = 0 := by
  have hth := thresholdBinary_uniform_zero m n t ht
  simp [detect_defects, hread, hblur, absdiff_uniform, hth, hopen, hfind, defectLoop]

def cvUniform : CV := { cvBase with imread := fun _ => uniformImg 2 3 9 }

theorem uniform_image_zero_defects_witness :
    (detect_defects cvUniform samplePath none 30).defects = [] ∧
    (detect_defects cvUniform samplePath none 30).defect_count = 0 :=
  uniform_image_zero_defects cvUniform samplePath none 30 2 3 9 (by norm_num)
    rfl rfl rfl rfl

/-! ## Identifier sequencing (C6) -/

/-- Defect ids continue consecutively from the number already emitted. -/
theorem defectLoop_ids (l : List Contour) :
    ∀ n, ((defectLoop n l).1).map DefectRecord.id =
      List.range' (n + 1) (defectLoop n l).1.length := by
  induction l with
  | nil => intro n; rfl
  | cons c rest ih =>
    intro n
    by_cases h : c.area < 50
    · simp only [defectLoop]
      rw [if_pos h]
      exact ih n
    · simp only [defectLoop]
      rw [if_neg h]
      simp only [List.map_cons, List.length_cons]
      rw [ih (n + 1)]
      rfl

/-- Every record emitted by the measurement loop started at index `i` has
`object_id` strictly greater than `i`. -/
theorem measureLoop_id_lt (cv : CV) (pmm : ℚ) (l : List Contour) :
    ∀ i, ∀ r ∈ (measureLoop cv pmm i l).1, i < r.object_id := by
  induction l with
  | nil => intro i r hr; simp [measureLoop] at hr
  | cons c rest ih =>
    intro i r hr
    by_cases h : c.area < 100
    · simp only [measureLoop] at hr
      rw [if_pos h] at hr
      exact Nat.lt_of_succ_lt (ih (i + 1) r hr)
    · simp only [measureLoop] at hr
      rw [if_neg h] at hr
      rcases List.mem_cons.mp hr with hre | hr'
      · rw [hre]; exact Nat.lt_succ_self i
      · exact Nat.lt_of_succ_lt (ih (i + 1) r hr')

/-- Measurement `object_id`s are strictly increasing along the emitted
list (they are the 1-based `enumerate` indices of the surviving
contours). -/
theorem measureLoop_chain (cv : CV) (pmm : ℚ) (l : List Contour) :
    ∀ i, List.Chain' (· < ·)
      ((measureLoop cv pmm i l).1.map MeasurementRecord.object_id) := by
  induction l with
  | nil => intro i; simp [measureLoop]
  | cons c rest ih =>
    intro i
    by_cases h : c.area < 100
    · simp only [measureLoop]
      rw [if_pos h]
      exact ih (i + 1)
    · simp only [measureLoop]
      rw [if_neg h]
      rw [List.map_cons]
      refine List.chain'_cons'.mpr ⟨?_, ih (i + 1)⟩
      intro b hb
      have hb' : b ∈ (measureLoop cv pmm (i + 1) rest).1.map
          MeasurementRecord.object_id := List.mem_of_mem_head? hb
      obtain ⟨r, hr, rfl⟩ := List.mem_map.mp hb'
      have hlt := measureLoop_id_lt cv pmm rest (i + 1) r hr
      simpa [mkMeasurement] using hlt

/-- C6 (amended): the defect detector's ids are the consecutive integers
`1, ..., n` in emission order (`id = len(defs)+1` at each append); the
measurer's `object_id`s are 1-based contour-discovery (`enumerate`)
indices, so they are strictly increasing but skip past contours discarded
by the area filter — the k-th emitted measurement record need not have
id k. -/
theorem record_ids_amended (cv : CV) (dpath mpath : String)
    (tPath : Option String) (t pmm : ℚ) :
    (detect_defects cv dpath tPath t).defects.map DefectRecord.id =
      List.range' 1 (detect_defects cv dpath tPath t).defects.length ∧
    List.Chain' (· < ·)
      ((measure_dimensions cv mpath pmm).measurements.map
        MeasurementRecord.object_id) := by
  constructor
  · exact defectLoop_ids _ 0
  · exact measureLoop_chain cv pmm _ 0

/-- A discovery-order contour list in which the first contour (area 50)
is discarded by the measurer's area-100 filter and the second (area 200,
low circularity) survives. -/
def cSmall : Contour := { area := 50, x := 0, y := 0, w := 5, h := 10, perimeter := 30 }

def cBig : Contour := { area := 200, x := 20, y := 20, w := 10, h := 20, perimeter := 200 }

def cvGap : CV := { cvBase with findContours := fun _ => [cSmall, cBig] }

/-- C6 (counterexample): with the first discovered contour discarded by
the area filter, the single emitted measurement record has `object_id` 2,
not 1 — the k-th emitted record does not have id k. -/
theorem measurement_ids_gap_counterexample :
    (measure_dimensions cvGap samplePath (1/10)).measurements.map
        MeasurementRecord.object_id = [2] ∧
    (measure_dimensions cvGap samplePath (1/10)).measurements.map
        MeasurementRecord.object_id ≠
      List.range' 1
        (measure_dimensions cvGap samplePath (1/10)).measurements.length := by
  norm_num [measure_dimensions, cvGap, cvBase, measureLoop, mkMeasurement,
    cSmall, cBig, circularity, List.range']

/-! ## Shape classification and diameter (C8, C9) -/

/-- Every emitted measurement record arises from some surviving contour
via `mkMeasurement`. -/
theorem measureLoop_mem (cv : CV) (pmm : ℚ) (l : List Contour) :
    ∀ i, ∀ r ∈ (measureLoop cv pmm i l).1,
      ∃ c ∈ l, ¬ c.area < 100 ∧ ∃ j, r = mkMeasurement cv pmm j c := by
  induction l with
  | nil => intro i r hr; simp [measureLoop] at hr
  | cons c rest ih =>
    intro i r hr
    by_cases h : c.area < 100
    · simp only [measureLoop] at hr
      rw [if_pos h] at hr
      obtain ⟨c', hc', hprops⟩ := ih (i + 1) r hr
      exact ⟨c', List.mem_cons_of_mem _ hc', hprops⟩
    · simp only [measureLoop] at hr
      rw [if_neg h] at hr
      rcases List.mem_cons.mp hr with hre | hr'
      · exact ⟨c, List.mem_cons_self _ _, h, i, hre⟩
      · obtain ⟨c', hc', hprops⟩ := ih (i + 1) r hr'
        exact ⟨c', List.mem_cons_of_mem _ hc', hprops⟩

/-- C8 (amended): every emitted measurement record comes from a surviving
contour; it is classified `circle` exactly when `4·pi·area/perimeter²`
(0 for zero perimeter) exceeds 0.8, and `diameter_mm` is present exactly
for circle-classified records, with value `2·sqrt(area/pi)·scale`
*rounded to two decimal places*. -/
theorem shape_classification_amended (cv : CV) (path : String) (pmm : ℚ)
    (r : MeasurementRecord)
    (hr : r ∈ (measure_dimensions cv path pmm).measurements) :
    ∃ c ∈ cv.findContours (cv.canny (cv.imread path)), ¬ c.area < 100 ∧
      (r.shape = Shape.circle ↔ 4/5 < circularity cv.pi c) ∧
      r.diameter_mm = (if 4/5 < circularity cv.pi c
        then some (round2 (2 * cv.sqrt (c.area / cv.pi) * pmm)) else none) := by
  obtain ⟨c, hc, hfilter, j, rfl⟩ := measureLoop_mem cv pmm _ 0 r hr
  refine ⟨c, hc, hfilter, ?_, ?_⟩
  · by_cases hcirc : 4/5 < circularity cv.pi c
    · simp [mkMeasurement, hcirc]
    · simp [mkMeasurement, hcirc]
  · by_cases hcirc : 4/5 < circularity cv.pi c
    · simp [mkMeasurement, hcirc]
    · simp [mkMeasurement, hcirc]

/-- A contour whose area is `36·pi` (for the stand-in rational `pi`), so
that `area/pi = 36` and the stand-in square root evaluates exactly. -/
def cCircle : Contour :=
  { area := 36 * (314159/100000), x := 10, y := 20, w := 12, h := 12,
    perimeter := 10 }

/-- `sqrt` here is faithful at the single point where the concrete
theorems evaluate it: `√36 = 6`. -/
def cvRound : CV :=
  { cvBase with
    findContours := fun _ => [cCircle]
    sqrt := fun q => if q = 36 then 6 else 0 }

def rRound : MeasurementRecord := mkMeasurement cvRound (123/1000) 0 cCircle

/-- C8 (counterexample): the emitted `diameter_mm` is
`round(2·sqrt(area/pi)·scale, 2) = 1.48`, which differs from the exact
product `2·sqrt(area/pi)·scale = 1.476` asserted by the claim. -/
theorem diameter_rounding_counterexample :
    (measure_dimensions cvRound samplePath (123/1000)).measurements = [rRound] ∧
    rRound.diameter_mm = some (37/25) ∧
    (37/25 : ℚ) ≠ 2 * cvRound.sqrt (cCircle.area / cvRound.pi) * (123/1000) := by
  refine ⟨?_, ?_, ?_⟩
  · norm_num [measure_dimensions, cvRound, cvBase, measureLoop, cCircle, rRound,
      mkMeasurement, circularity, round2, round_eq]
  · norm_num [rRound, mkMeasurement, cvRound, cvBase, cCircle, circularity,
      round2, round_eq]
  · norm_num [cvRound, cvBase, cCircle]

theorem shape_classification_witness :
    ∃ c ∈ cvRound.findContours (cvRound.canny (cvRound.imread samplePath)),
      ¬ c.area < 100 ∧
      (rRound.shape = Shape.circle ↔ 4/5 < circularity cvRound.pi c) ∧
      rRound.diameter_mm = (if 4/5 < circularity cvRound.pi c
        then some (round2 (2 * cvRound.sqrt (c.area / cvRound.pi) * (123/1000)))
        else none) :=
  shape_classification_amended cvRound samplePath (123/1000) rRound
    (by norm_num [measure_dimensions, cvRound, cvBase, measureLoop, cCircle,
      rRound, mkMeasurement, circularity, round2, round_eq])

/-- C9: for a degenerate contour with zero perimeter the guarded
circularity is 0 — the division is never taken with a zero divisor — and
the record is classified `rectangle` with no diameter; measurement is
total over such contours. -/
theorem circularity_zero_perimeter (cv : CV) (pmm : ℚ) (i : ℕ) (c : Contour)
    (hp : c.perimeter = 0) :
    circularity cv.pi c = 0 ∧
    (mkMeasurement cv pmm i c).shape = Shape.rectangle ∧
    (mkMeasurement cv pmm i c).diameter_mm = none := by
  have hz : circularity cv.pi c = 0 := by
    unfold circularity
    rw [if_neg (by rw [hp]; exact lt_irrefl 0)]
  refine ⟨hz, ?_, ?_⟩
  · norm_num [mkMeasurement, hz]
  · norm_num [mkMeasurement, hz]

def cDegenerate : Contour :=
  { area := 150, x := 0, y := 0, w := 10, h := 10, perimeter := 0 }

theorem circularity_zero_perimeter_witness :
    circularity cvBase.pi cDegenerate = 0 ∧
    (mkMeasurement cvBase (1/10) 0 cDegenerate).shape = Shape.rectangle ∧
    (mkMeasurement cvBase (1/10) 0 cDegenerate).diameter_mm = none :=
  circularity_zero_perimeter cvBase (1/10) 0 cDegenerate rfl

/-! ## Fiducial rotation estimate (C4) -/

/-- Two detected marks whose centers share a y coordinate: the angle of
the second relative to the first is exactly 0°. -/
def cvFid : CV :=
  { cvBase with
    houghCircles := fun _ _ _ => some [⟨100, 100, 5⟩, ⟨200, 100, 5⟩] }

/-- C4 (code bug): with two marks detected at `(100,100)` and `(200,100)`
the computed angle `degrees(atan2(0, 100))` is exactly `0.0`, which is
falsy in Python, so `round(ang, 2) if ang else None` returns `None`: the
rotation estimate is absent even though two marks were found, against the
spec's "absent iff fewer than two marks". -/
theorem fiducial_zero_angle_dropped :
    (detect_fiducial_marks cvFid samplePath 5 25).marks.length = 2 ∧
    (detect_fiducial_marks cvFid samplePath 5 25).rotation_angle = none := by
  norm_num [detect_fiducial_marks, cvFid, cvBase, List.enum, List.enumFrom]

end AOI
